import Mathlib

/-!
Verification of the metadata-fetch / cache / rate-limit workflow, the ranking
pipeline, the report writer/parser and the clone executor of
`src/bulk_clone_repos.py`, against its natural-language specification.

Modelling conventions:
* Python strings are modelled as lists of characters (`Str`), so that every
  string operation of the source (`strip`, `split`, `replace`, substring
  tests) is an executable, inductively defined Lean function.
* The in-memory cache (a Python `dict` from URL to a metadata record or the
  `None` tombstone) is an association list with a canonical insert; a dict
  assignment `cache[url] = v` is modelled lookup-faithfully by
  `cacheInsert` (the Python dict keeps the entry position on update, which
  is irrelevant to every claim, all of which are lookup-level).
* The network is a script of events (`List NetEvent`), one per HTTP request
  issued; `requests.get` raising is `transportError`, a reply carries the
  status code, the parsed rate-limit headers, whether `response.json()`
  succeeds, and the optional `size` / `stargazers_count` JSON fields.
  `time.time()` at the moment a reply is handled is the reply's `now` field,
  and `time.sleep(w)` is recorded in the `sleeps` trace of the result.
* An uncaught Python exception (the `TypeError` raised by `'size' in None`)
  is the distinguished outcome `Outcome.typeError`; exhausting the network
  script is the model artifact `Outcome.outOfEvents`.
-/

abbrev Str := List Char

/-- Python `s.strip("/")`: drop leading and trailing slash characters. -/
def stripSlashes (s : Str) : Str :=
  ((s.dropWhile (· == '/')).reverse.dropWhile (· == '/')).reverse

/-- Python `s.split('/')` with an explicit separator: no collapsing of empty
parts, and the empty string yields `[""]`. -/
def splitChar (sep : Char) : Str → List Str
  | [] => [[]]
  | c :: cs =>
    match splitChar sep cs with
    | [] => [[]]
    | p :: ps => if c = sep then [] :: p :: ps else (c :: p) :: ps

/-- Python `s.replace(".git", "")`: remove every occurrence of `.git`,
scanning left to right. -/
def removeGit : Str → Str
  | '.' :: 'g' :: 'i' :: 't' :: cs => removeGit cs
  | c :: cs => c :: removeGit cs
  | [] => []

/-- Python `s.strip()` with no argument: drop surrounding whitespace. -/
def trimStr (s : Str) : Str :=
  ((s.dropWhile Char.isWhitespace).reverse.dropWhile Char.isWhitespace).reverse

/-- Python `pat in s` substring test. -/
def containsSub (pat : Str) : Str → Bool
  | [] => pat.isEmpty
  | c :: cs => pat.isPrefixOf (c :: cs) || containsSub pat cs

/-- Rendering of a natural number, as Python renders a non-negative `int`
inside an f-string. -/
def natStr (n : Nat) : Str := (Nat.repr n).toList

/-- The configuration constants of the script's `Config` class that the
verified components read (the file-path constants only name files, whose
contents the model passes explicitly). -/
structure Config where
  TOP_N_REPOS : Nat
  MAX_REPO_SIZE_KB : Nat
  CLONE_DIR : Str

/-- A metadata record as built by `_fetch_repo_metadata`:
`{"url": ..., "stars": ..., "size": ...}`. -/
structure RepoMetadata where
  url : Str
  stars : Nat
  size : Nat
  deriving DecidableEq

/-- A value stored in the JSON cache under a URL key: the `None` tombstone
written for oversized repositories, a current-format record carrying a
`size` field, or an old-format record lacking the `size` field. -/
inductive CacheEntry where
  | tombstone : CacheEntry
  | entry (m : RepoMetadata) : CacheEntry
  | oldEntry (url : Str) (stars : Nat) : CacheEntry
  deriving DecidableEq

abbrev Cache := List (Str × CacheEntry)

/-- Python dict membership / indexing: `cache[url]` when present. -/
def cacheLookup : Cache → Str → Option CacheEntry
  | [], _ => none
  | (k, v) :: rest, key => if k == key then some v else cacheLookup rest key

/-- Remove every binding of a key (auxiliary to the canonical insert). -/
def cacheErase (c : Cache) (key : Str) : Cache :=
  c.filter (fun p => !(p.1 == key))

/-- Python `cache[url] = v`: lookup-faithful model of dict assignment. -/
def cacheInsert (c : Cache) (key : Str) (v : CacheEntry) : Cache :=
  (key, v) :: cacheErase c key

/-- One HTTP reply, as `_fetch_repo_metadata` inspects it: the status code,
the parsed `X-RateLimit-Remaining` and `X-RateLimit-Reset` headers (absent
headers are `none`), the value of `time.time()` while this reply is
handled, whether `response.json()` decodes, and the optional `size` and
`stargazers_count` fields of the decoded JSON body. -/
structure ApiResponse where
  status : Nat
  rateRemaining : Option Int
  rateReset : Option Int
  now : Int
  jsonOk : Bool
  size : Option Nat
  stargazers : Option Nat
  deriving DecidableEq

/-- One event of the network script: either `requests.get` raises a
`RequestException`, or it returns a reply. -/
inductive NetEvent where
  | transportError : NetEvent
  | response (resp : ApiResponse) : NetEvent
  deriving DecidableEq

/-- How a call of `_fetch_repo_metadata` ends: a normal return (of a record
or of `None`), an uncaught `TypeError`, or exhaustion of the network script
(a model artifact: the real function would issue a further request). -/
inductive Outcome where
  | ok (r : Option RepoMetadata) : Outcome
  | typeError : Outcome
  | outOfEvents : Outcome
  deriving DecidableEq

/-- Result of a fetch call: the outcome, the cache after the call, and the
trace of `time.sleep` durations performed (in seconds). -/
structure FetchResult where
  res : Outcome
  cache : Cache
  sleeps : List Int
  deriving DecidableEq

/-- Line 128 of the source: `response.status_code in [404, 403, 451]`. -/
def isExcludedStatus (s : Nat) : Bool := s == 404 || s == 403 || s == 451

/-- Line 129: `response.status_code == 429 or ('X-RateLimit-Remaining' in
response.headers and int(response.headers['X-RateLimit-Remaining']) == 0)`. -/
def isRateLimit (resp : ApiResponse) : Bool :=
  resp.status == 429 || resp.rateRemaining == some 0

/-- Line 130: `int(response.headers.get('X-RateLimit-Reset', time.time() + 60))`. -/
def resetTimeOf (resp : ApiResponse) : Int := resp.rateReset.getD (resp.now + 60)

/-- Line 131: `wait_time = max(reset_time - time.time(), 0) + 1`. -/
def waitTime (resp : ApiResponse) : Int := max (resetTimeOf resp - resp.now) 0 + 1

/-- The API branch of `_fetch_repo_metadata` (lines 121-155): the
404/403/451 check precedes the rate-limit check; a rate-limit signal sleeps
`waitTime` and retries on the remaining script; `raise_for_status()` on a
status of 400 or above and a `response.json()` decode failure are both
caught by the `except RequestException` handler (returning `None` with no
cache write); missing JSON fields default to 0 via `data.get(..., 0)`.
The source retries by calling `_fetch_repo_metadata` itself; as the retry
leaves the cache untouched, the re-evaluated line-111 guard takes the same
miss branch again, so recursing directly here is equivalent — the lemma
`fetch_retry_eq` below records this. -/
def fetchFromApi (cfg : Config) (repo_url : Str) (cache : Cache) :
    List NetEvent → FetchResult
  | [] => ⟨Outcome.outOfEvents, cache, []⟩
  | NetEvent.transportError :: _ => ⟨Outcome.ok none, cache, []⟩
  | NetEvent.response resp :: rest =>
      if isExcludedStatus resp.status then ⟨Outcome.ok none, cache, []⟩
      else if isRateLimit resp then
        let r := fetchFromApi cfg repo_url cache rest
        ⟨r.res, r.cache, waitTime resp :: r.sleeps⟩
      else if 400 ≤ resp.status then ⟨Outcome.ok none, cache, []⟩
      else if resp.jsonOk = false then ⟨Outcome.ok none, cache, []⟩
      else
        let sz := resp.size.getD 0
        if cfg.MAX_REPO_SIZE_KB < sz then
          ⟨Outcome.ok none, cacheInsert cache repo_url CacheEntry.tombstone, []⟩
        else
          let r : RepoMetadata := ⟨repo_url, resp.stargazers.getD 0, sz⟩
          ⟨Outcome.ok (some r), cacheInsert cache repo_url (CacheEntry.entry r), []⟩

/-- The fetcher `_fetch_repo_metadata(repo_url, cache, config)` (lines
109-155).  The guard of line 111 is `repo_url in cache and 'size' in
cache[repo_url]`: on a tombstone (`None`) the membership test
`'size' in None` raises an uncaught `TypeError` — the `None` check of line
113 is unreachable dead code, which the model reflects.  An entry lacking
`size` (old cache format) fails the guard and falls through to the API
query. -/
def _fetch_repo_metadata (cfg : Config) (repo_url : Str) (cache : Cache)
    (net : List NetEvent) : FetchResult :=
  match cacheLookup cache repo_url with
  | some CacheEntry.tombstone => ⟨Outcome.typeError, cache, []⟩
  | some (CacheEntry.entry m) =>
      if cfg.MAX_REPO_SIZE_KB < m.size then ⟨Outcome.ok none, cache, []⟩
      else ⟨Outcome.ok (some m), cache, []⟩
  | _ => fetchFromApi cfg repo_url cache net

/-- A URL on which the line-111 guard fails, so that the fetcher proceeds to
the API: the URL is absent from the cache, or cached in the old format
without a `size` field. -/
def cacheMiss (cache : Cache) (url : Str) : Bool :=
  match cacheLookup cache url with
  | none => true
  | some (CacheEntry.oldEntry _ _) => true
  | _ => false

/-- Comparator under which line 64 sorts: `all_repos_data.sort(key=lambda
x: x['stars'], reverse=True)` orders by descending star count. -/
def starsGe (a b : RepoMetadata) : Prop := b.stars ≤ a.stars

instance : DecidableRel starsGe := fun a b => Nat.decLe b.stars a.stars

instance : IsTotal RepoMetadata starsGe := ⟨fun a b => Nat.le_total b.stars a.stars⟩

instance : IsTrans RepoMetadata starsGe := ⟨fun _ _ _ h1 h2 => Nat.le_trans h2 h1⟩

/-- Lines 64-65: the stable descending sort followed by `[:TOP_N_REPOS]`.
Python `list.sort` is stable, and `reverse=True` keeps tied elements in
encounter order; the unique stable sort for the `starsGe` comparator is
insertion sort with `starsGe`. -/
def rankRepos (l : List RepoMetadata) (topN : Nat) : List RepoMetadata :=
  (List.insertionSort starsGe l).take topN

/-- Result of the fetch loop of `get_top_repos_from_api` (lines 56-60):
either an uncaught `TypeError` aborted the process, or the network script
ran out (model artifact), or the loop finished with the collected records
and the final cache. -/
inductive CollectResult where
  | crash : CollectResult
  | outOfEvents : CollectResult
  | done (repos : List RepoMetadata) (cache : Cache) : CollectResult
  deriving DecidableEq

/-- Lines 56-60: fetch each URL in turn, threading the cache, keeping the
non-null results; nothing in the loop catches the `TypeError` of line 111,
so it propagates and kills the process. -/
def collectRepos (cfg : Config) (netOf : Str → List NetEvent) :
    List Str → Cache → CollectResult
  | [], cache => CollectResult.done [] cache
  | url :: rest, cache =>
    let fr := _fetch_repo_metadata cfg url cache (netOf url)
    match fr.res with
    | Outcome.typeError => CollectResult.crash
    | Outcome.outOfEvents => CollectResult.outOfEvents
    | Outcome.ok none => collectRepos cfg netOf rest fr.cache
    | Outcome.ok (some r) =>
      match collectRepos cfg netOf rest fr.cache with
      | CollectResult.done rs c => CollectResult.done (r :: rs) c
      | other => other

/-- How a run of the ranking pipeline ends: `sys.exit(1)` (non-zero exit),
an uncaught exception (also a non-zero exit), script exhaustion (model
artifact), or normal completion with the ranked list and final cache. -/
inductive RunOutcome where
  | fatalExit : RunOutcome
  | crash : RunOutcome
  | outOfEvents : RunOutcome
  | done (ranked : List RepoMetadata) (cache : Cache) : RunOutcome
  deriving DecidableEq

def ghMarker : Str := "github.com".toList

/-- The ranking pipeline `get_top_repos_from_api(config)` (lines 41-68).
The contents of `REPO_LIST_FILE` enter as `Option (List Str)`, with `none`
for `FileNotFoundError`, on which line 54 calls `sys.exit(1)`.  Line 51
strips each line, keeps the ones containing `github.com`, and deduplicates
through a Python `set`, whose iteration order is unspecified; the model
uses `List.dedup` (no claim depends on the resulting order).  The cache
save and markdown write of lines 62 and 67 persist parts of the returned
state and are modelled by `_write_markdown_file` separately. -/
def get_top_repos_from_api (cfg : Config) (inputLines : Option (List Str))
    (cache : Cache) (netOf : Str → List NetEvent) : RunOutcome :=
  match inputLines with
  | none => RunOutcome.fatalExit
  | some lines =>
    let urls := ((lines.map trimStr).filter (containsSub ghMarker)).dedup
    match collectRepos cfg netOf urls cache with
    | CollectResult.crash => RunOutcome.crash
    | CollectResult.outOfEvents => RunOutcome.outOfEvents
    | CollectResult.done rs c => RunOutcome.done (rankRepos rs cfg.TOP_N_REPOS) c

/-- Line 81: `parts = repo['url'].strip("/").split('/')`. -/
def urlParts (url : Str) : List Str := splitChar '/' (stripSlashes url)

/-- Line 82, `parts[-2]` — defined for the lists of two or more parts every
URL of interest produces (on shorter lists Python raises, which the
executor catches per item and the writer does not; no claim exercises
that). -/
def ownerOf (url : Str) : Str :=
  (urlParts url).getD ((urlParts url).length - 2) []

/-- Line 82, `parts[-1].replace(".git", "")`. -/
def repoNameOf (url : Str) : Str :=
  removeGit ((urlParts url).getD ((urlParts url).length - 1) [])

/-- Python `str.lower()` (agrees with `Char.toLower` on the ASCII names
GitHub allows). -/
def toLowerStr (s : Str) : Str := s.map Char.toLower

/-- Line 83: `os.path.join(config.CLONE_DIR, f"{owner}__{repo_name}".lower())`. -/
def targetDirOf (cloneDir url : Str) : Str :=
  cloneDir ++ '/' :: toLowerStr (ownerOf url ++ '_' :: '_' :: repoNameOf url)

/-- The git command lines 85-91 run for one repository. -/
inductive GitAction where
  | pull (dir : Str) : GitAction
  | cloneRepo (url dir : Str) : GitAction
  deriving DecidableEq

/-- Lines 85-91 of `clone_or_update_repos` for one repository, with the set
of locally existing directories passed explicitly: pull inside the target
directory when it exists, clone into it otherwise. -/
def syncStep (cfg : Config) (existingDirs : List Str) (url : Str) : GitAction :=
  let d := targetDirOf cfg.CLONE_DIR url
  if existingDirs.contains d then GitAction.pull d
  else GitAction.cloneRepo url d

def mark19 : Str := "https://github.com/".toList

def linkMarker : Str := '[' :: mark19

/-- Characters strictly before the first `]` of the input, if a `]` occurs. -/
def upToRB : Str → Option Str
  | [] => none
  | c :: cs => if c = ']' then some [] else (upToRB cs).map (c :: ·)

/-- The lazy `.+?]` tail of the pattern: at least one character (which may
itself be `]`), then everything up to the next `]`. -/
def captureTail : Str → Option Str
  | [] => none
  | c :: cs => (upToRB cs).map (c :: ·)

/-- Line 31: `re.search(r"\[(https://github.com/.+?)\]", line)`, returning
group 1 — the leftmost position where `[https://github.com/` occurs and a
`]` follows at least one character later wins. -/
def scanLink : Str → Option Str
  | [] => none
  | c :: cs =>
    if linkMarker.isPrefixOf (c :: cs) then
      match captureTail (cs.drop 19) with
      | some cap => some (mark19 ++ cap)
      | none => scanLink cs
    else scanLink cs

/-- The report parser `parse_markdown_for_repos(md_file)` (lines 24-39):
a missing file gives `[]` (FileNotFoundError handler), otherwise one regex
search per line in file order, collecting the captured URLs. -/
def parse_markdown_for_repos (file : Option (List Str)) : List Str :=
  match file with
  | none => []
  | some lines => lines.filterMap scanLink

/-- Renderings in `_write_markdown_file` that Python produces from the wall
clock and from `float` arithmetic (the timestamp of line 161, the
`MAX_REPO_SIZE_KB / 1024` megabyte figure of line 160 and the
`f"{repo['size'] / 1024:.2f} MB"` cell of line 168): floating point and
real time are not shallow-embeddable, so these presentational texts are
inputs of the model. -/
structure MdEnv where
  ts : Str
  titleSize : Str
  sizeCell : Nat → Str

/-- Line 169: one table row. -/
def rowLine (env : MdEnv) (i : Nat) (r : RepoMetadata) : Str :=
  "| ".toList ++ natStr i ++ " | `".toList ++ ownerOf r.url
    ++ '/' :: repoNameOf r.url ++ "` | ".toList ++ natStr r.stars
    ++ " | `".toList ++ env.sizeCell r.size ++ "` | [".toList ++ r.url
    ++ "](".toList ++ r.url ++ ") |".toList

/-- Lines 165-169: `for i, repo in enumerate(repos, 1)`. -/
def rowsFrom (env : MdEnv) (i : Nat) : List RepoMetadata → List Str
  | [] => []
  | r :: rest => rowLine env i r :: rowsFrom env (i + 1) rest

/-- Lines 160-164: the header block, split at the newline characters the
source writes. -/
def headerLines (env : MdEnv) (count : Nat) : List Str :=
  ["# Top ".toList ++ natStr count ++ " Kho Chứa Git (Nhỏ hơn ".toList
      ++ env.titleSize ++ "MB)".toList,
   [],
   "*Tự động tạo lúc: ".toList ++ env.ts ++ "*".toList,
   "*Xóa file này để buộc kịch bản lấy lại dữ liệu mới từ API.*".toList,
   [],
   "| Hạng | Tên Kho Chứa | ⭐ Sao | Kích thước | URL |".toList,
   "|------|--------------|-------|------------|-----|".toList]

/-- The report writer `_write_markdown_file(md_file, repos)` (lines
157-170), as the list of lines of the produced file. -/
def _write_markdown_file (env : MdEnv) (repos : List RepoMetadata) : List Str :=
  headerLines env repos.length ++ rowsFrom env 1 repos

/-- Well-formedness of a repository URL under which its written table row
parses back to exactly that URL: the URL strictly extends
`https://github.com/` and contains no square bracket. -/
def urlClean (u : Str) : Bool :=
  mark19.isPrefixOf u && decide (mark19.length < u.length)
    && !u.contains '[' && !u.contains ']'

/-- The configuration the script ships with: `TOP_N_REPOS = 50`,
`MAX_REPO_SIZE_KB = 5120`, `CLONE_DIR = "community-templates"`. -/
def cfgD : Config := ⟨50, 5120, "community-templates".toList⟩

def uA : Str := "https://github.com/a/b".toList

def uC : Str := "https://github.com/c/d".toList

/-- A successful reply describing a 300-star, 100 KB repository. -/
def respB : ApiResponse := ⟨200, none, none, 0, true, some 100, some 300⟩

/-- A successful reply describing a 500-star, 8000 KB repository (over the
5120 KB default limit). -/
def respC : ApiResponse := ⟨200, none, none, 0, true, some 8000, some 500⟩

/-- One concrete rendering environment for the report writer: a timestamp,
the `5.0` the title shows for 5120 KB, and a fixed-point size cell. -/
def mdEnvD : MdEnv :=
  ⟨"2025-01-01 00:00:00".toList, "5.0".toList, fun _ => "0.10 MB".toList⟩

-- Helper lemmas ---------------------------------------------------------

theorem cacheLookup_erase_self (c : Cache) (k : Str) :
    cacheLookup (cacheErase c k) k = none := by
  induction c with
  | nil => rfl
  | cons p rest ih =>
    obtain ⟨a, b⟩ := p
    by_cases h : a == k
    · simpa [cacheErase, List.filter_cons, h] using ih
    · simpa [cacheErase, List.filter_cons, h, cacheLookup] using ih

theorem cacheErase_idem (c : Cache) (k : Str) :
    cacheErase (cacheErase c k) k = cacheErase c k := by
  simp [cacheErase, List.filter_filter]

theorem cacheLookup_insert_self (c : Cache) (k : Str) (v : CacheEntry) :
    cacheLookup (cacheInsert c k v) k = some v := by
  simp [cacheInsert, cacheLookup]

/-- On a cache miss (line-111 guard false) the fetcher is its API branch;
in particular the recursive rate-limit retry of line 134, which re-enters
`_fetch_repo_metadata` with the cache unchanged, re-takes this branch. -/
theorem fetch_eq_api (cfg : Config) (url : Str) (cache : Cache)
    (net : List NetEvent) (h : cacheMiss cache url = true) :
    _fetch_repo_metadata cfg url cache net = fetchFromApi cfg url cache net := by
  unfold _fetch_repo_metadata
  unfold cacheMiss at h
  cases hl : cacheLookup cache url with
  | none => simp [hl]
  | some e =>
    cases e with
    | tombstone => rw [hl] at h; simp at h
    | entry m => rw [hl] at h; simp at h
    | oldEntry u s => simp [hl]

theorem fetch_retry_eq (cfg : Config) (url : Str) (cache : Cache)
    (net : List NetEvent) (h : cacheMiss cache url = true) :
    fetchFromApi cfg url cache net = _fetch_repo_metadata cfg url cache net :=
  (fetch_eq_api cfg url cache net h).symm

theorem fetchFromApi_excluded (cfg : Config) (url : Str) (cache : Cache)
    (resp : ApiResponse) (rest : List NetEvent)
    (h : isExcludedStatus resp.status = true) :
    fetchFromApi cfg url cache (NetEvent.response resp :: rest) =
      ⟨Outcome.ok none, cache, []⟩ := by
  simp [fetchFromApi, h]

theorem fetchFromApi_ratelimit (cfg : Config) (url : Str) (cache : Cache)
    (resp : ApiResponse) (rest : List NetEvent)
    (hnf : isExcludedStatus resp.status = false) (hrl : isRateLimit resp = true) :
    fetchFromApi cfg url cache (NetEvent.response resp :: rest) =
      ⟨(fetchFromApi cfg url cache rest).res,
       (fetchFromApi cfg url cache rest).cache,
       waitTime resp :: (fetchFromApi cfg url cache rest).sleeps⟩ := by
  simp [fetchFromApi, hnf, hrl]

theorem fetchFromApi_httpError (cfg : Config) (url : Str) (cache : Cache)
    (resp : ApiResponse) (rest : List NetEvent)
    (hrl : isRateLimit resp = false) (hge : 400 ≤ resp.status) :
    fetchFromApi cfg url cache (NetEvent.response resp :: rest) =
      ⟨Outcome.ok none, cache, []⟩ := by
  by_cases hnf : isExcludedStatus resp.status
  · simp [fetchFromApi, hnf]
  · rw [Bool.not_eq_true] at hnf
    simp [fetchFromApi, hnf, hrl, hge]

theorem fetchFromApi_badJson (cfg : Config) (url : Str) (cache : Cache)
    (resp : ApiResponse) (rest : List NetEvent)
    (hnf : isExcludedStatus resp.status = false) (hrl : isRateLimit resp = false)
    (hok : resp.status < 400) (hjson : resp.jsonOk = false) :
    fetchFromApi cfg url cache (NetEvent.response resp :: rest) =
      ⟨Outcome.ok none, cache, []⟩ := by
  simp [fetchFromApi, hnf, hrl, hjson, show ¬ (400 ≤ resp.status) from by omega]

theorem fetchFromApi_success (cfg : Config) (url : Str) (cache : Cache)
    (resp : ApiResponse) (rest : List NetEvent)
    (hnf : isExcludedStatus resp.status = false) (hrl : isRateLimit resp = false)
    (hok : resp.status < 400) (hjson : resp.jsonOk = true) :
    fetchFromApi cfg url cache (NetEvent.response resp :: rest) =
      if cfg.MAX_REPO_SIZE_KB < resp.size.getD 0 then
        ⟨Outcome.ok none, cacheInsert cache url CacheEntry.tombstone, []⟩
      else
        ⟨Outcome.ok (some ⟨url, resp.stargazers.getD 0, resp.size.getD 0⟩),
          cacheInsert cache url
            (CacheEntry.entry ⟨url, resp.stargazers.getD 0, resp.size.getD 0⟩),
          []⟩ := by
  simp [fetchFromApi, hnf, hrl, hjson, show ¬ (400 ≤ resp.status) from by omega]

/-- A status below 400 is in particular none of 404, 403, 451. -/
theorem isExcludedStatus_of_lt_400 (s : Nat) (h : s < 400) :
    isExcludedStatus s = false := by
  simp only [isExcludedStatus, Bool.or_eq_false_iff, beq_eq_false_iff_ne]
  omega

/-- Congruence of the API branch in its cache argument: the branch never
reads the cache, so two caches whose bindings away from `url` agree drive
it identically — same outcome, same sleep trace, and either both caches
come back untouched or both runs end with the identical written cache. -/
theorem fetchFromApi_cache_congr (cfg : Config) (url : Str) (c1 c2 : Cache)
    (hins : cacheErase c1 url = cacheErase c2 url) :
    ∀ net : List NetEvent,
      (fetchFromApi cfg url c1 net).res = (fetchFromApi cfg url c2 net).res ∧
      (fetchFromApi cfg url c1 net).sleeps = (fetchFromApi cfg url c2 net).sleeps ∧
      ((fetchFromApi cfg url c1 net).cache = c1 ∧
          (fetchFromApi cfg url c2 net).cache = c2 ∨
        (fetchFromApi cfg url c1 net).cache = (fetchFromApi cfg url c2 net).cache)
  | [] => ⟨rfl, rfl, Or.inl ⟨rfl, rfl⟩⟩
  | NetEvent.transportError :: _ => ⟨rfl, rfl, Or.inl ⟨rfl, rfl⟩⟩
  | NetEvent.response resp :: rest => by
    by_cases hnf : isExcludedStatus resp.status
    · rw [fetchFromApi_excluded cfg url c1 resp rest hnf,
        fetchFromApi_excluded cfg url c2 resp rest hnf]
      exact ⟨rfl, rfl, Or.inl ⟨rfl, rfl⟩⟩
    · rw [Bool.not_eq_true] at hnf
      by_cases hrl : isRateLimit resp
      · rw [fetchFromApi_ratelimit cfg url c1 resp rest hnf hrl,
          fetchFromApi_ratelimit cfg url c2 resp rest hnf hrl]
        obtain ⟨h1, h2, h3⟩ := fetchFromApi_cache_congr cfg url c1 c2 hins rest
        exact ⟨h1, by rw [h2], h3⟩
      · rw [Bool.not_eq_true] at hrl
        by_cases hge : 400 ≤ resp.status
        · rw [fetchFromApi_httpError cfg url c1 resp rest hrl hge,
            fetchFromApi_httpError cfg url c2 resp rest hrl hge]
          exact ⟨rfl, rfl, Or.inl ⟨rfl, rfl⟩⟩
        · have hok : resp.status < 400 := by omega
          by_cases hjson : resp.jsonOk
          · rw [fetchFromApi_success cfg url c1 resp rest hnf hrl hok hjson,
              fetchFromApi_success cfg url c2 resp rest hnf hrl hok hjson]
            by_cases hsz : cfg.MAX_REPO_SIZE_KB < resp.size.getD 0
            · simp only [if_pos hsz]
              exact ⟨by simp, by simp, Or.inr (by simp [cacheInsert, hins])⟩
            · simp only [if_neg hsz]
              exact ⟨by simp, by simp, Or.inr (by simp [cacheInsert, hins])⟩
          · rw [Bool.not_eq_true] at hjson
            rw [fetchFromApi_badJson cfg url c1 resp rest hnf hrl hok hjson,
              fetchFromApi_badJson cfg url c2 resp rest hnf hrl hok hjson]
            exact ⟨rfl, rfl, Or.inl ⟨rfl, rfl⟩⟩

-- Claim theorems --------------------------------------------------------

/-- C1 (code bug).  The claim says a cached tombstone makes `fetch` return
null immediately; in the code the line-111 guard evaluates `'size' in None`
on a tombstone and raises an uncaught `TypeError` instead (the `None` check
of line 113 is dead code below it).  At the failing input — a cache binding
the URL to a tombstone — the fetcher ends in the `TypeError` outcome
without touching the network script; the remaining two cached cases of the
claim do hold, and are evaluated here as well: a cached entry above the
currently configured maximum yields null, and one within the limit is
returned unchanged, both without a network call. -/
theorem C1_tombstone_raises :
    (_fetch_repo_metadata cfgD uA [(uA, CacheEntry.tombstone)]
        [NetEvent.transportError]
      = ⟨Outcome.typeError, [(uA, CacheEntry.tombstone)], []⟩) ∧
    (_fetch_repo_metadata cfgD uA [(uA, CacheEntry.entry ⟨uA, 500, 8000⟩)]
        [NetEvent.transportError]
      = ⟨Outcome.ok none, [(uA, CacheEntry.entry ⟨uA, 500, 8000⟩)], []⟩) ∧
    (_fetch_repo_metadata cfgD uA [(uA, CacheEntry.entry ⟨uA, 300, 100⟩)]
        [NetEvent.transportError]
      = ⟨Outcome.ok (some ⟨uA, 300, 100⟩), [(uA, CacheEntry.entry ⟨uA, 300, 100⟩)],
          []⟩) :=
  ⟨by decide, by decide, by decide⟩

/-- C2 (confirmed).  For a URL the cache does not decide (absent, or cached
without a `size` field) and a successful API reply: a fetched size above
the configured maximum stores a tombstone under the URL and returns null;
otherwise the record `{url, stars, size}` is stored under the URL and
returned. -/
theorem C2_success_stores (cfg : Config) (url : Str) (cache : Cache)
    (resp : ApiResponse) (rest : List NetEvent)
    (hmiss : cacheMiss cache url = true)
    (hnf : isExcludedStatus resp.status = false)
    (hrl : isRateLimit resp = false)
    (hok : resp.status < 400)
    (hjson : resp.jsonOk = true) :
    _fetch_repo_metadata cfg url cache (NetEvent.response resp :: rest) =
      if cfg.MAX_REPO_SIZE_KB < resp.size.getD 0 then
        ⟨Outcome.ok none, cacheInsert cache url CacheEntry.tombstone, []⟩
      else
        ⟨Outcome.ok (some ⟨url, resp.stargazers.getD 0, resp.size.getD 0⟩),
          cacheInsert cache url
            (CacheEntry.entry ⟨url, resp.stargazers.getD 0, resp.size.getD 0⟩),
          []⟩ := by
  rw [fetch_eq_api cfg url cache _ hmiss]
  exact fetchFromApi_success cfg url cache resp rest hnf hrl hok hjson

/-- Witness for C2, on the spec's own scenario data: repository C (500
stars, 8000 KB, over the 5120 KB maximum) is tombstoned and excluded,
repository B (300 stars, 100 KB) is stored and returned. -/
theorem C2_success_stores_witness :
    cacheMiss [] uC = true ∧
    _fetch_repo_metadata cfgD uC [] [NetEvent.response respC]
      = ⟨Outcome.ok none, cacheInsert [] uC CacheEntry.tombstone, []⟩ ∧
    _fetch_repo_metadata cfgD uA [] [NetEvent.response respB]
      = ⟨Outcome.ok (some ⟨uA, 300, 100⟩),
          cacheInsert [] uA (CacheEntry.entry ⟨uA, 300, 100⟩), []⟩ := by
  refine ⟨by decide, ?_, ?_⟩
  · have h := C2_success_stores cfgD uC [] respC [] (by decide) (by decide)
      (by decide) (by decide) (by decide)
    simpa [cfgD, respC] using h
  · have h := C2_success_stores cfgD uA [] respB [] (by decide) (by decide)
      (by decide) (by decide) (by decide)
    simpa [cfgD, respB] using h

/-- C4 (confirmed).  For a URL the cache does not decide, a 404, 403 or 451
reply, and likewise a transport failure or a malformed (undecodable) body,
make the fetcher return null with the cache exactly as it was — no
tombstone, no record, no sleep. -/
theorem C4_skip_leaves_cache (cfg : Config) (url : Str) (cache : Cache)
    (e : NetEvent) (rest : List NetEvent)
    (hmiss : cacheMiss cache url = true)
    (hcase : e = NetEvent.transportError ∨
      ∃ resp, e = NetEvent.response resp ∧
        (isExcludedStatus resp.status = true ∨
          (isRateLimit resp = false ∧ resp.status < 400 ∧ resp.jsonOk = false))) :
    _fetch_repo_metadata cfg url cache (e :: rest) = ⟨Outcome.ok none, cache, []⟩ := by
  rw [fetch_eq_api cfg url cache _ hmiss]
  rcases hcase with rfl | ⟨resp, rfl, hc | ⟨hrl, hok, hj⟩⟩
  · rfl
  · exact fetchFromApi_excluded cfg url cache resp rest hc
  · exact fetchFromApi_badJson cfg url cache resp rest
      (isExcludedStatus_of_lt_400 resp.status hok) hrl hok hj

/-- Witness for C4: a 404 reply, a transport error, and a 200 reply whose
body fails to decode, each on an empty cache. -/
theorem C4_skip_leaves_cache_witness :
    cacheMiss [] uA = true ∧
    _fetch_repo_metadata cfgD uA []
        [NetEvent.response ⟨404, none, none, 0, true, none, none⟩]
      = ⟨Outcome.ok none, [], []⟩ ∧
    _fetch_repo_metadata cfgD uA [] [NetEvent.transportError]
      = ⟨Outcome.ok none, [], []⟩ ∧
    _fetch_repo_metadata cfgD uA []
        [NetEvent.response ⟨200, none, none, 0, false, none, none⟩]
      = ⟨Outcome.ok none, [], []⟩ := by
  refine ⟨by decide, ?_, ?_, ?_⟩
  · exact C4_skip_leaves_cache cfgD uA [] _ [] (by decide)
      (Or.inr ⟨_, rfl, Or.inl (by decide)⟩)
  · exact C4_skip_leaves_cache cfgD uA [] _ [] (by decide) (Or.inl rfl)
  · exact C4_skip_leaves_cache cfgD uA [] _ [] (by decide)
      (Or.inr ⟨_, rfl, Or.inr ⟨by decide, by decide, by decide⟩⟩)

/-- C3 counterexample.  A 403 reply whose remaining-quota header reads zero
is a rate-limit signal in the claim's sense, yet the code's line-128 check
handles the 403 first: the fetcher returns null at once — no sleep, no
retry — and never reaches the success reply that follows. -/
theorem C3_counterexample :
    isRateLimit ⟨403, some 0, some 100, 10, true, some 100, some 300⟩ = true ∧
    _fetch_repo_metadata cfgD uA []
        [NetEvent.response ⟨403, some 0, some 100, 10, true, some 100, some 300⟩,
         NetEvent.response ⟨200, none, none, 20, true, some 100, some 300⟩]
      = ⟨Outcome.ok none, [], []⟩ ∧
    (⟨Outcome.ok none, [], []⟩ : FetchResult).res ≠ Outcome.ok (some ⟨uA, 300, 100⟩) :=
  ⟨by decide, by decide, by decide⟩

/-- C3 as amended: for a rate-limit signal (status 429, or remaining-quota
zero) whose status is not one of 404/403/451 — those are checked first and
returned as null — the fetcher sleeps exactly `max(reset - now, 0) + 1`
seconds, a blocking that ends at or after the reset time plus a one-second
margin, and then retries the same request on the remaining script; in
particular a 429 reply followed by a successful within-limit reply yields
that success result. -/
theorem C3_rate_limit_retry (cfg : Config) (url : Str) (cache : Cache)
    (resp resp' : ApiResponse) (rest : List NetEvent)
    (hmiss : cacheMiss cache url = true)
    (hnf : isExcludedStatus resp.status = false)
    (hrl : isRateLimit resp = true)
    (hnf' : isExcludedStatus resp'.status = false)
    (hrl' : isRateLimit resp' = false)
    (hok' : resp'.status < 400)
    (hjson' : resp'.jsonOk = true)
    (hsz' : resp'.size.getD 0 ≤ cfg.MAX_REPO_SIZE_KB) :
    (_fetch_repo_metadata cfg url cache (NetEvent.response resp :: rest) =
      ⟨(_fetch_repo_metadata cfg url cache rest).res,
       (_fetch_repo_metadata cfg url cache rest).cache,
       waitTime resp :: (_fetch_repo_metadata cfg url cache rest).sleeps⟩) ∧
    resetTimeOf resp + 1 ≤ resp.now + waitTime resp ∧
    (_fetch_repo_metadata cfg url cache
        [NetEvent.response resp, NetEvent.response resp']).res =
      Outcome.ok (some ⟨url, resp'.stargazers.getD 0, resp'.size.getD 0⟩) := by
  refine ⟨?_, ?_, ?_⟩
  · rw [fetch_eq_api cfg url cache _ hmiss, fetch_eq_api cfg url cache rest hmiss]
    exact fetchFromApi_ratelimit cfg url cache resp rest hnf hrl
  · have h := le_max_left (resetTimeOf resp - resp.now) 0
    simp only [waitTime]
    omega
  · rw [fetch_eq_api cfg url cache _ hmiss,
      fetchFromApi_ratelimit cfg url cache resp _ hnf hrl]
    dsimp only
    rw [fetchFromApi_success cfg url cache resp' [] hnf' hrl' hok' hjson',
      if_neg (Nat.not_lt.mpr hsz')]

/-- Witness for the amended C3: a 429 reply (reset 100, clock 10) followed
by the 300-star 100 KB success; the fetcher sleeps 91 seconds and returns
the success record. -/
theorem C3_rate_limit_retry_witness :
    cacheMiss [] uA = true ∧
    (_fetch_repo_metadata cfgD uA []
        [NetEvent.response ⟨429, none, some 100, 10, true, none, none⟩,
         NetEvent.response respB]).res = Outcome.ok (some ⟨uA, 300, 100⟩) ∧
    resetTimeOf ⟨429, none, some 100, 10, true, none, none⟩ + 1 ≤
      (10 : Int) + waitTime ⟨429, none, some 100, 10, true, none, none⟩ := by
  have h := C3_rate_limit_retry cfgD uA [] ⟨429, none, some 100, 10, true, none, none⟩
    respB [] (by decide) (by decide) (by decide) (by decide) (by decide) (by decide)
    (by decide) (by decide)
  exact ⟨by decide, by simpa [respB] using h.2.2, h.2.1⟩

/-- C8 counterexample.  A decodable 200 reply missing both the star-count
and the size field is not skipped: `data.get("stargazers_count", 0)` and
`data.get("size", 0)` default the fields to 0, a record `{url, 0, 0}` is
built, cached and returned — not null as the claim requires. -/
theorem C8_counterexample :
    _fetch_repo_metadata cfgD uA []
        [NetEvent.response ⟨200, none, none, 0, true, none, none⟩]
      = ⟨Outcome.ok (some ⟨uA, 0, 0⟩),
          cacheInsert [] uA (CacheEntry.entry ⟨uA, 0, 0⟩), []⟩ ∧
    Outcome.ok (some (⟨uA, 0, 0⟩ : RepoMetadata)) ≠ Outcome.ok none :=
  ⟨by decide, by decide⟩

/-- C8 as amended: a successful reply missing the size field yields a
record whose size is 0 (which always passes the size filter), and one
missing the star-count field yields a record with 0 stars; in either case
the record is cached and returned rather than the fetch being skipped. -/
theorem C8_missing_fields_default (cfg : Config) (url : Str) (cache : Cache)
    (resp : ApiResponse) (rest : List NetEvent)
    (hmiss : cacheMiss cache url = true)
    (hnf : isExcludedStatus resp.status = false)
    (hrl : isRateLimit resp = false)
    (hok : resp.status < 400)
    (hjson : resp.jsonOk = true) :
    (resp.size = none →
      _fetch_repo_metadata cfg url cache (NetEvent.response resp :: rest) =
        ⟨Outcome.ok (some ⟨url, resp.stargazers.getD 0, 0⟩),
          cacheInsert cache url (CacheEntry.entry ⟨url, resp.stargazers.getD 0, 0⟩),
          []⟩) ∧
    (resp.stargazers = none → resp.size.getD 0 ≤ cfg.MAX_REPO_SIZE_KB →
      _fetch_repo_metadata cfg url cache (NetEvent.response resp :: rest) =
        ⟨Outcome.ok (some ⟨url, 0, resp.size.getD 0⟩),
          cacheInsert cache url (CacheEntry.entry ⟨url, 0, resp.size.getD 0⟩),
          []⟩) := by
  constructor
  · intro hsz
    rw [fetch_eq_api cfg url cache _ hmiss,
      fetchFromApi_success cfg url cache resp rest hnf hrl hok hjson, hsz]
    simp
  · intro hst hsz
    rw [fetch_eq_api cfg url cache _ hmiss,
      fetchFromApi_success cfg url cache resp rest hnf hrl hok hjson,
      if_neg (Nat.not_lt.mpr hsz), hst]
    simp

/-- Witness for the amended C8: the no-field reply of the counterexample,
through both conjuncts. -/
theorem C8_missing_fields_default_witness :
    cacheMiss [] uC = true ∧
    _fetch_repo_metadata cfgD uC []
        [NetEvent.response ⟨200, none, none, 0, true, none, none⟩]
      = ⟨Outcome.ok (some ⟨uC, 0, 0⟩),
          cacheInsert [] uC (CacheEntry.entry ⟨uC, 0, 0⟩), []⟩ := by
  have h := C8_missing_fields_default cfgD uC []
    ⟨200, none, none, 0, true, none, none⟩ [] (by decide) (by decide) (by decide)
    (by decide) (by decide)
  exact ⟨by decide, h.1 rfl⟩

/-- C10 (confirmed).  A cached record lacking a `size` field fails the
line-111 guard exactly like an absent key: the fetch result and sleep trace
coincide with those on the cache with the entry removed, and whatever that
uncached run writes under the URL (record or tombstone) ends up under the
URL here as well, replacing the old-format entry. -/
theorem C10_old_format_is_miss (cfg : Config) (url : Str) (cache : Cache)
    (u : Str) (s : Nat) (net : List NetEvent)
    (h : cacheLookup cache url = some (CacheEntry.oldEntry u s)) :
    ((_fetch_repo_metadata cfg url cache net).res =
        (_fetch_repo_metadata cfg url (cacheErase cache url) net).res) ∧
    ((_fetch_repo_metadata cfg url cache net).sleeps =
        (_fetch_repo_metadata cfg url (cacheErase cache url) net).sleeps) ∧
    ∀ e, cacheLookup
          (_fetch_repo_metadata cfg url (cacheErase cache url) net).cache url
        = some e →
      cacheLookup (_fetch_repo_metadata cfg url cache net).cache url = some e := by
  have hmiss1 : cacheMiss cache url = true := by simp [cacheMiss, h]
  have hmiss2 : cacheMiss (cacheErase cache url) url = true := by
    simp [cacheMiss, cacheLookup_erase_self]
  rw [fetch_eq_api cfg url cache net hmiss1,
    fetch_eq_api cfg url (cacheErase cache url) net hmiss2]
  obtain ⟨h1, h2, h3⟩ := fetchFromApi_cache_congr cfg url cache
    (cacheErase cache url) (cacheErase_idem cache url).symm net
  refine ⟨h1, h2, fun e he => ?_⟩
  rcases h3 with ⟨hc1, hc2⟩ | hc
  · rw [hc2, cacheLookup_erase_self] at he
    exact absurd he (by simp)
  · rw [hc]
    exact he

/-- Witness for C10: an old-format entry for the URL, one successful reply;
the final cache holds the freshly fetched record under the URL. -/
theorem C10_old_format_is_miss_witness :
    cacheLookup [(uA, CacheEntry.oldEntry uA 3)] uA
      = some (CacheEntry.oldEntry uA 3) ∧
    (_fetch_repo_metadata cfgD uA [(uA, CacheEntry.oldEntry uA 3)]
        [NetEvent.response respB]).res
      = (_fetch_repo_metadata cfgD uA (cacheErase [(uA, CacheEntry.oldEntry uA 3)] uA)
          [NetEvent.response respB]).res ∧
    cacheLookup (_fetch_repo_metadata cfgD uA [(uA, CacheEntry.oldEntry uA 3)]
        [NetEvent.response respB]).cache uA
      = some (CacheEntry.entry ⟨uA, 300, 100⟩) := by
  have h := C10_old_format_is_miss cfgD uA [(uA, CacheEntry.oldEntry uA 3)] uA 3
    [NetEvent.response respB] (by decide)
  exact ⟨by decide, h.1, h.2.2 _ (by decide)⟩

/-- Inserting into a list moves the new element past exactly the elements
it is not `starsGe`-above; through a filter whose members are pairwise tied
(all `starsGe` each other) the insertion is a plain cons. -/
theorem filter_orderedInsert (p : RepoMetadata → Bool) (x : RepoMetadata)
    (l : List RepoMetadata)
    (hp : ∀ a b, p a = true → p b = true → starsGe a b) :
    (List.orderedInsert starsGe x l).filter p =
      if p x then x :: l.filter p else l.filter p := by
  induction l with
  | nil => by_cases hx : p x <;> simp [List.orderedInsert, hx]
  | cons y ys ih =>
    by_cases hr : starsGe x y
    · simp [List.orderedInsert, hr, List.filter_cons]
    · rw [show List.orderedInsert starsGe x (y :: ys)
          = y :: List.orderedInsert starsGe x ys by simp [List.orderedInsert, hr]]
      by_cases hy : p y
      · by_cases hx : p x
        · exact absurd (hp x y hx hy) hr
        · simp [List.filter_cons, hy, hx, ih]
      · simp [List.filter_cons, hy, ih]

/-- A stable sort leaves the elements of any tied class in their original
relative order: filtering the sorted list by a fixed star count gives back
the filtration of the input unchanged. -/
theorem filter_insertionSort (p : RepoMetadata → Bool)
    (hp : ∀ a b, p a = true → p b = true → starsGe a b) (l : List RepoMetadata) :
    (List.insertionSort starsGe l).filter p = l.filter p := by
  induction l with
  | nil => rfl
  | cons x xs ih =>
    rw [List.insertionSort, filter_orderedInsert p x _ hp, ih, List.filter_cons]

/-- C5 (confirmed).  For every collected list, the output of lines 64-65 —
the stable descending sort by stars followed by `[:TOP_N_REPOS]` — has
length at most the configured top-N, is sorted by star count descending,
and leaves every class of tied star counts in the order the sort
encountered them (its filtration by any fixed star count is a sublist of
the input's filtration — in fact, a prefix of it). -/
theorem C5_rank_sorted_bounded_stable (l : List RepoMetadata) (n : Nat) :
    (rankRepos l n).length ≤ n ∧
    List.Sorted starsGe (rankRepos l n) ∧
    ∀ s : Nat, ((rankRepos l n).filter (fun r => r.stars == s)).Sublist
      (l.filter (fun r => r.stars == s)) := by
  refine ⟨List.length_take_le n _, ?_, ?_⟩
  · exact List.Pairwise.sublist (List.take_sublist n _)
      (List.sorted_insertionSort starsGe l)
  · intro s
    have hp : ∀ a b : RepoMetadata,
        (a.stars == s) = true → (b.stars == s) = true → starsGe a b := by
      intro a b ha hb
      have ha' : a.stars = s := by simpa using ha
      have hb' : b.stars = s := by simpa using hb
      simp [starsGe, ha', hb']
    have h1 := List.Sublist.filter (fun r : RepoMetadata => r.stars == s)
      (List.take_sublist n (List.insertionSort starsGe l))
    rwa [filter_insertionSort _ hp l] at h1

/-- C6 (code bug).  The first half of the claim holds: a missing input file
is precisely the `sys.exit(1)` path of line 54, and every per-repository
failure the fetch loop can surface (not-found, transport error, oversize)
degrades to a skip.  But the claim's "exits zero on every other run" fails:
a run whose cache holds a tombstone — written by a previous run's size
filtering — raises an uncaught `TypeError` in `_fetch_repo_metadata` and
the process dies non-zero although the input file is present. -/
theorem C6_exit_paths :
    (∀ (cfg : Config) (cache : Cache) (netOf : Str → List NetEvent),
      get_top_repos_from_api cfg none cache netOf = RunOutcome.fatalExit) ∧
    get_top_repos_from_api cfgD (some [uA]) [(uA, CacheEntry.tombstone)]
        (fun _ => []) = RunOutcome.crash :=
  ⟨fun _ _ _ => rfl, by decide⟩

/-- C9 (confirmed).  The executor derives the target directory as the
lower-cased `owner__name` joined under the clone directory — the two
same-named example repositories land in the distinct directories
`ownera__repo` and `ownerb__repo` — and runs a pull in the directory when
it exists, a clone targeting it otherwise. -/
theorem C9_sync_step (cfg : Config) (existingDirs : List Str) (url : Str) :
    (targetDirOf cfgD.CLONE_DIR "https://github.com/ownerA/repo".toList
      = "community-templates/ownera__repo".toList) ∧
    (targetDirOf cfgD.CLONE_DIR "https://github.com/ownerB/repo".toList
      = "community-templates/ownerb__repo".toList) ∧
    ("community-templates/ownera__repo".toList
      ≠ "community-templates/ownerb__repo".toList) ∧
    (targetDirOf cfg.CLONE_DIR url ∈ existingDirs →
      syncStep cfg existingDirs url
        = GitAction.pull (targetDirOf cfg.CLONE_DIR url)) ∧
    (targetDirOf cfg.CLONE_DIR url ∉ existingDirs →
      syncStep cfg existingDirs url
        = GitAction.cloneRepo url (targetDirOf cfg.CLONE_DIR url)) := by
  refine ⟨by decide, by decide, by decide, fun h => ?_, fun h => ?_⟩
  · simp [syncStep, h]
  · simp [syncStep, h]

/-- Witness for C9: with the derived directory present the executor pulls;
with it absent the executor clones. -/
theorem C9_sync_step_witness :
    targetDirOf cfgD.CLONE_DIR "https://github.com/ownerA/repo".toList
      ∈ ["community-templates/ownera__repo".toList] ∧
    syncStep cfgD ["community-templates/ownera__repo".toList]
        "https://github.com/ownerA/repo".toList
      = GitAction.pull (targetDirOf cfgD.CLONE_DIR
          "https://github.com/ownerA/repo".toList) ∧
    syncStep cfgD [] "https://github.com/ownerB/repo".toList
      = GitAction.cloneRepo "https://github.com/ownerB/repo".toList
          (targetDirOf cfgD.CLONE_DIR "https://github.com/ownerB/repo".toList) := by
  refine ⟨by decide, ?_, ?_⟩
  · exact (C9_sync_step cfgD ["community-templates/ownera__repo".toList]
      "https://github.com/ownerA/repo".toList).2.2.2.1 (by decide)
  · exact (C9_sync_step cfgD [] "https://github.com/ownerB/repo".toList).2.2.2.2
      (by decide)

-- Lemmas for the report round trip ------------------------------------

theorem isPrefixOf_append_self (l t : Str) : l.isPrefixOf (l ++ t) = true := by
  induction l with
  | nil => simp [List.isPrefixOf]
  | cons c cs ih => simp [List.isPrefixOf, ih]

theorem isPrefixOf_exists (l : Str) :
    ∀ u : Str, l.isPrefixOf u = true → ∃ t, u = l ++ t := by
  induction l with
  | nil => exact fun u _ => ⟨u, rfl⟩
  | cons c cs ih =>
    intro u h
    cases u with
    | nil => simp [List.isPrefixOf] at h
    | cons d ds =>
      simp only [List.isPrefixOf, Bool.and_eq_true, beq_iff_eq] at h
      obtain ⟨rfl, h2⟩ := h
      obtain ⟨t, rfl⟩ := ih ds h2
      exact ⟨t, rfl⟩

theorem digitChar_isDigit (m : Nat) (h : m < 10) : (Nat.digitChar m).isDigit = true := by
  interval_cases m <;> decide

theorem toDigitsCore_digits :
    ∀ (f n : Nat) (ds : List Char), (∀ c ∈ ds, c.isDigit = true) →
      ∀ c ∈ Nat.toDigitsCore 10 f n ds, c.isDigit = true
  | 0, n, ds, hds, c, hc => by
    rw [Nat.toDigitsCore] at hc
    exact hds c hc
  | f + 1, n, ds, hds, c, hc => by
    rw [Nat.toDigitsCore] at hc
    by_cases h0 : n / 10 = 0
    · rw [if_pos h0] at hc
      rcases List.mem_cons.mp hc with rfl | hc2
      · exact digitChar_isDigit (n % 10) (Nat.mod_lt n (by decide))
      · exact hds c hc2
    · rw [if_neg h0] at hc
      refine toDigitsCore_digits f (n / 10) _ (fun c' hc' => ?_) c hc
      rcases List.mem_cons.mp hc' with rfl | h
      · exact digitChar_isDigit (n % 10) (Nat.mod_lt n (by decide))
      · exact hds c' h

theorem natStr_digits (n : Nat) : ∀ c ∈ natStr n, c.isDigit = true := by
  intro c hc
  exact toDigitsCore_digits (n + 1) n [] (by simp) c hc

theorem natStr_no_lb (n : Nat) : '[' ∉ natStr n := by
  intro h
  exact absurd (natStr_digits n '[' h) (by decide)

theorem marker_not_prefixOf (c : Char) (cs : Str) (h : ¬ c = '[') :
    linkMarker.isPrefixOf (c :: cs) = false := by
  have hb : ('[' == c) = false := beq_eq_false_iff_ne.mpr (fun e => h e.symm)
  simp [linkMarker, List.isPrefixOf, hb]

theorem scanLink_cons_ne (c : Char) (cs : Str) (h : ¬ c = '[') :
    scanLink (c :: cs) = scanLink cs := by
  rw [scanLink, marker_not_prefixOf c cs h]
  simp

theorem scanLink_append_of_no_lb (pre t : Str) (h : '[' ∉ pre) :
    scanLink (pre ++ t) = scanLink t := by
  induction pre with
  | nil => rfl
  | cons c cs ih =>
    have hc : ¬ c = '[' := fun e => h (by simp [e])
    rw [List.cons_append, scanLink_cons_ne c _ hc]
    exact ih (fun hm => h (List.mem_cons_of_mem c hm))

theorem scanLink_none_of_no_lb (s : Str) (h : '[' ∉ s) : scanLink s = none := by
  have h2 := scanLink_append_of_no_lb s [] h
  simpa using h2

theorem upToRB_append (xs ys : Str) (h : ']' ∉ xs) :
    upToRB (xs ++ ']' :: ys) = some xs := by
  induction xs with
  | nil => simp [upToRB]
  | cons c cs ih =>
    have hc : ¬ c = ']' := fun e => h (by simp [e])
    simp [upToRB, hc, ih (fun hm => h (List.mem_cons_of_mem c hm))]

theorem captureTail_append (x : Char) (xs ys : Str) (h : ']' ∉ xs) :
    captureTail ((x :: xs) ++ ']' :: ys) = some (x :: xs) := by
  simp [captureTail, upToRB_append xs ys h]

theorem scanLink_marker (r0 : Char) (rr tail : Str) (hrr : ']' ∉ rr) :
    scanLink ('[' :: (mark19 ++ ((r0 :: rr) ++ ']' :: tail)))
      = some (mark19 ++ r0 :: rr) := by
  have hp : linkMarker.isPrefixOf
      ('[' :: (mark19 ++ ((r0 :: rr) ++ ']' :: tail))) = true :=
    isPrefixOf_append_self linkMarker ((r0 :: rr) ++ ']' :: tail)
  have hd : ((mark19 ++ ((r0 :: rr) ++ ']' :: tail)) : Str).drop 19
      = (r0 :: rr) ++ ']' :: tail := by
    have h19 : (19 : Nat) = mark19.length := rfl
    rw [h19, List.drop_left]
  rw [scanLink, if_pos hp, hd, captureTail_append r0 rr tail hrr]

theorem removeGit_sublist : ∀ s : Str, (removeGit s).Sublist s := by
  intro s
  induction s using removeGit.induct with
  | case1 cs ih =>
    rw [removeGit]
    exact ((((ih.cons _).cons _).cons _).cons _)
  | case2 c cs hne ih =>
    rw [removeGit]
    · exact ih.cons₂ c
    · exact hne
  | case3 => simp [removeGit]

theorem mem_stripSlashes (s : Str) (c : Char) (h : c ∈ stripSlashes s) : c ∈ s := by
  unfold stripSlashes at h
  rw [List.mem_reverse] at h
  have h2 := List.Sublist.mem h (List.dropWhile_sublist _)
  rw [List.mem_reverse] at h2
  exact List.Sublist.mem h2 (List.dropWhile_sublist _)

theorem mem_splitChar (sep : Char) :
    ∀ (s p : Str), p ∈ splitChar sep s → ∀ c ∈ p, c ∈ s
  | [], p, hp, c, hc => by
    simp [splitChar] at hp
    subst hp
    simp at hc
  | d :: ds, p, hp, c, hc => by
    cases hsp : splitChar sep ds with
    | nil =>
      rw [splitChar, hsp] at hp
      simp at hp
      subst hp
      simp at hc
    | cons q qs =>
      rw [splitChar, hsp] at hp
      dsimp only at hp
      by_cases hd : d = sep
      · rw [if_pos hd] at hp
        rcases List.mem_cons.mp hp with rfl | hp2
        · simp at hc
        · have hmem : p ∈ splitChar sep ds := by rw [hsp]; exact hp2
          exact List.mem_cons_of_mem d (mem_splitChar sep ds p hmem c hc)
      · rw [if_neg hd] at hp
        rcases List.mem_cons.mp hp with rfl | hp2
        · rcases List.mem_cons.mp hc with rfl | hc2
          · exact List.mem_cons_self _ _
          · have hmem : q ∈ splitChar sep ds := by
              rw [hsp]; exact List.mem_cons_self q qs
            exact List.mem_cons_of_mem d (mem_splitChar sep ds q hmem c hc2)
        · have hmem : p ∈ splitChar sep ds := by
            rw [hsp]; exact List.mem_cons_of_mem q hp2
          exact List.mem_cons_of_mem d (mem_splitChar sep ds p hmem c hc)

theorem mem_getD_parts (ps : List Str) (i : Nat) (c : Char)
    (h : c ∈ ps.getD i []) : ∃ p ∈ ps, c ∈ p := by
  rw [List.getD_eq_getElem?_getD] at h
  cases hg : ps[i]? with
  | none => rw [hg] at h; simp at h
  | some p => rw [hg] at h; exact ⟨p, List.getElem?_mem hg, h⟩

theorem mem_urlParts (url : Str) (i : Nat) (c : Char)
    (h : c ∈ (urlParts url).getD i []) : c ∈ url := by
  obtain ⟨p, hp, hc⟩ := mem_getD_parts _ i c h
  exact mem_stripSlashes url c (mem_splitChar '/' _ p hp c hc)

theorem mem_ownerOf (url : Str) (c : Char) (h : c ∈ ownerOf url) : c ∈ url :=
  mem_urlParts url _ c h

theorem mem_repoNameOf (url : Str) (c : Char) (h : c ∈ repoNameOf url) : c ∈ url :=
  mem_urlParts url _ c (List.Sublist.mem h (removeGit_sublist _))

theorem urlClean_parts (u : Str) (h : urlClean u = true) :
    ∃ r0 rr, u = mark19 ++ r0 :: rr ∧ ']' ∉ rr ∧ '[' ∉ u ∧ ']' ∉ u := by
  unfold urlClean at h
  simp only [Bool.and_eq_true, decide_eq_true_eq, Bool.not_eq_true'] at h
  obtain ⟨⟨⟨h1, h2⟩, h3⟩, h4⟩ := h
  simp at h3 h4
  obtain ⟨t, rfl⟩ := isPrefixOf_exists mark19 u h1
  cases t with
  | nil => simp at h2
  | cons r0 rr =>
    refine ⟨r0, rr, rfl, fun hm => ?_, h3, h4⟩
    exact h4 (List.mem_append.mpr (Or.inr (List.mem_cons_of_mem r0 hm)))

theorem scanLink_rowLine (env : MdEnv) (i : Nat) (r : RepoMetadata)
    (hcell : '[' ∉ env.sizeCell r.size) (hurl : urlClean r.url = true) :
    scanLink (rowLine env i r) = some r.url := by
  obtain ⟨r0, rr, hu, hrr, hnolb, _⟩ := urlClean_parts r.url hurl
  have hpre : '[' ∉ ("| ".toList ++ natStr i ++ " | `".toList ++ ownerOf r.url
      ++ '/' :: repoNameOf r.url ++ "` | ".toList ++ natStr r.stars
      ++ " | `".toList ++ env.sizeCell r.size ++ "` | ".toList) := by
    intro hm
    have h1 : '[' ∉ "| ".toList := by decide
    have h2 := natStr_no_lb i
    have h3 : '[' ∉ " | `".toList := by decide
    have h4 : '[' ∉ ownerOf r.url := fun hx => hnolb (mem_ownerOf r.url '[' hx)
    have h5 : ('[' : Char) ≠ '/' := by decide
    have h6 : '[' ∉ repoNameOf r.url := fun hx => hnolb (mem_repoNameOf r.url '[' hx)
    have h7 : '[' ∉ "` | ".toList := by decide
    have h8 := natStr_no_lb r.stars
    simp only [List.mem_append, List.mem_cons] at hm
    tauto
  have l1 : ("` | [".toList : Str) = "` | ".toList ++ ['['] := by decide
  have l2 : ("](".toList : Str) = [']'] ++ ['('] := by decide
  have hrow : rowLine env i r
      = ("| ".toList ++ natStr i ++ " | `".toList ++ ownerOf r.url
          ++ '/' :: repoNameOf r.url ++ "` | ".toList ++ natStr r.stars
          ++ " | `".toList ++ env.sizeCell r.size ++ "` | ".toList)
        ++ ('[' :: (mark19 ++ ((r0 :: rr)
            ++ ']' :: ('(' :: ((mark19 ++ r0 :: rr) ++ ") |".toList))))) := by
    unfold rowLine
    rw [hu, l1, l2]
    simp [List.append_assoc]
  rw [hrow, scanLink_append_of_no_lb _ _ hpre, scanLink_marker r0 rr _ hrr, hu]

theorem header_no_match (env : MdEnv) (count : Nat)
    (hts : '[' ∉ env.ts) (htitle : '[' ∉ env.titleSize) :
    (headerLines env count).filterMap scanLink = [] := by
  rw [List.filterMap_eq_nil_iff]
  intro line hl
  apply scanLink_none_of_no_lb
  intro hm
  simp only [headerLines, List.mem_cons, List.not_mem_nil, or_false] at hl
  rcases hl with rfl | rfl | rfl | rfl | rfl | rfl | rfl
  · have h1 : '[' ∉ "# Top ".toList := by decide
    have h2 := natStr_no_lb count
    have h3 : '[' ∉ " Kho Chứa Git (Nhỏ hơn ".toList := by decide
    have h4 : '[' ∉ "MB)".toList := by decide
    simp only [List.mem_append] at hm
    tauto
  · simp at hm
  · have h1 : '[' ∉ "*Tự động tạo lúc: ".toList := by decide
    have h2 : '[' ∉ "*".toList := by decide
    simp only [List.mem_append] at hm
    tauto
  · exact absurd hm (by decide)
  · simp at hm
  · exact absurd hm (by decide)
  · exact absurd hm (by decide)

theorem rows_parse (env : MdEnv) (rs : List RepoMetadata)
    (hcell : ∀ r ∈ rs, '[' ∉ env.sizeCell r.size)
    (hurls : ∀ r ∈ rs, urlClean r.url = true) :
    ∀ i, (rowsFrom env i rs).filterMap scanLink = rs.map (fun r => r.url) := by
  induction rs with
  | nil => intro i; rfl
  | cons r rest ih =>
    intro i
    have h1 := scanLink_rowLine env i r (hcell r (List.mem_cons_self r rest))
      (hurls r (List.mem_cons_self r rest))
    simp [rowsFrom, List.filterMap_cons, h1,
      ih (fun x hx => hcell x (List.mem_cons_of_mem r hx))
        (fun x hx => hurls x (List.mem_cons_of_mem r hx))]

/-- C7 counterexample.  The input source accepts any line containing
`github.com`, but the parse regex anchors on `[https://github.com/`: a
ranked repository whose URL is `http://github.com/a/b` is written to the
report yet parsing the report yields nothing — the set of URLs is not
preserved. -/
theorem C7_counterexample :
    parse_markdown_for_repos (some (_write_markdown_file mdEnvD
        [⟨"http://github.com/a/b".toList, 5, 10⟩])) = [] ∧
    ([⟨"http://github.com/a/b".toList, 5, 10⟩] : List RepoMetadata).map
        (fun r => r.url) = ["http://github.com/a/b".toList] ∧
    ([] : List Str) ≠ ["http://github.com/a/b".toList] :=
  ⟨by decide, by decide, by decide⟩

/-- C7 as amended: for every ranked list each of whose URLs strictly
extends `https://github.com/` and contains no square bracket (and given
that the rendered timestamp, title size and size cells contain no `[`,
which Python's clock and number formatting guarantee), writing the report
and then parsing it yields exactly the list of repository URLs, in ranked
order — which is also their order of appearance in the file. -/
theorem C7_round_trip (env : MdEnv) (rs : List RepoMetadata)
    (hts : '[' ∉ env.ts) (htitle : '[' ∉ env.titleSize)
    (hcell : ∀ r ∈ rs, '[' ∉ env.sizeCell r.size)
    (hurls : ∀ r ∈ rs, urlClean r.url = true) :
    parse_markdown_for_repos (some (_write_markdown_file env rs))
      = rs.map (fun r => r.url) := by
  show (_write_markdown_file env rs).filterMap scanLink = rs.map (fun r => r.url)
  unfold _write_markdown_file
  rw [List.filterMap_append, header_no_match env rs.length hts htitle,
    rows_parse env rs hcell hurls 1, List.nil_append]

/-- Witness for the amended C7: a two-repository report round-trips to its
URL list in order. -/
theorem C7_round_trip_witness :
    urlClean uA = true ∧ urlClean uC = true ∧
    parse_markdown_for_repos (some (_write_markdown_file mdEnvD
        [⟨uA, 300, 100⟩, ⟨uC, 500, 8000⟩])) = [uA, uC] := by
  refine ⟨by decide, by decide, ?_⟩
  have h := C7_round_trip mdEnvD [⟨uA, 300, 100⟩, ⟨uC, 500, 8000⟩]
    (by decide) (by decide)
    (by intro r hr
        simp only [List.mem_cons, List.not_mem_nil, or_false] at hr
        rcases hr with rfl | rfl <;> decide)
    (by intro r hr
        simp only [List.mem_cons, List.not_mem_nil, or_false] at hr
        rcases hr with rfl | rfl <;> decide)
  simpa using h

